import Mathlib

/-!
Shallow embedding of the EmberBus review dashboard (`streamlit_app_2.py`).

The program loads per-brand review CSV files, normalizes them into one
unified dataset (`load_data`), and renders two pages:

* "Monthly Ratings": month-truncates dates, groups by (brand, month) and
  averages ratings, pivots, reindexes over the global month range,
  forward-fills, and melts back to long form for charting.
* "Management Dashboard": shows rows whose `MgmtFlag` column equals the
  string "Yes", filtered by an inclusive date range.

Dates are modelled as explicit (year, month, day, seconds-within-day)
timestamps (the CSV `Date` column is parsed to a UTC timestamp by
`pd.to_datetime`; the timezone is uniform and dropped before comparisons,
so it is not represented).  Ratings are rationals, so group means are
exact.  `pd.to_datetime(..., errors="coerce")` and
`pd.to_numeric(..., errors="coerce")` are modelled by `Option`-valued
cells on raw rows: `none` is the coercion failure (NaT / NaN).
-/

set_option autoImplicit false

namespace EmberBus

/-- A point in time: the result of parsing a CSV `Date` cell.  Ordered
lexicographically by year, month, day, second-of-day. -/
structure Timestamp where
  year : Int
  month : Int
  day : Int
  sec : Int
deriving DecidableEq, Repr

/-- Lexicographic `≤` on timestamps, as a boolean (pandas comparison on a
datetime column). -/
def Timestamp.le (a b : Timestamp) : Bool :=
  a.year < b.year ||
    (a.year == b.year &&
      (a.month < b.month ||
        (a.month == b.month &&
          (a.day < b.day || (a.day == b.day && a.sec ≤ b.sec)))))

/-- A calendar date (no time of day), as produced by the `st.date_input`
widgets on the management page. -/
structure DateOnly where
  year : Int
  month : Int
  day : Int
deriving DecidableEq, Repr

/-- `pd.to_datetime` applied to a plain date: midnight of that day. -/
def DateOnly.toTimestamp (d : DateOnly) : Timestamp :=
  ⟨d.year, d.month, d.day, 0⟩

/-- One row of an input CSV file, after the two `errors="coerce"`
conversions: `dateCell`/`ratingCell` are `none` exactly when the raw text
failed to parse (NaT / NaN).  `mgmtCell` is the raw `MgmtFlag` cell
(`none` models a missing value in a present column); it is only
meaningful when the file actually has that column. -/
structure RawRow where
  brand : String
  dateCell : Option Timestamp
  ratingCell : Option ℚ
  title : String
  review : String
  mgmtCell : Option String
deriving DecidableEq, Repr

/-- An input CSV file: which of the relevant named columns it has, and
its rows. -/
structure CSVFile where
  hasBrand : Bool
  hasDate : Bool
  hasRating : Bool
  hasMgmtFlag : Bool
  rows : List RawRow
deriving DecidableEq, Repr

/-- A fully normalized review record: `Date` and `Rating` both parsed
(rows where either is absent are dropped by
`df.dropna(subset=["Date", "Rating"])`). -/
structure Row where
  brand : String
  date : Timestamp
  rating : ℚ
  title : String
  review : String
  mgmtFlag : Option String
deriving DecidableEq, Repr

/-- The unified dataset `df_all`: its rows, plus whether the `MgmtFlag`
column is present (`pd.concat` takes the union of the concatenated
frames' columns; the initial `pd.DataFrame()` has none). -/
structure UnifiedDataset where
  hasMgmtFlagCol : Bool
  rows : List Row
deriving DecidableEq, Repr

/-- The structural check of `load_data`: the file is used only when the
`Date`, `Rating` and `Brand` columns are all present (line 15 of the
source, negated). -/
def qualifies (f : CSVFile) : Bool :=
  f.hasDate && f.hasRating && f.hasBrand

/-- Row-level normalization: keep the row only when both coercions
succeeded (`dropna`), carrying the other fields through unchanged.  A
row from a file without a `MgmtFlag` column gets NaN (`none`) in that
column after `pd.concat`. -/
def normRow (hasMgmt : Bool) (r : RawRow) : Option Row :=
  match r.dateCell, r.ratingCell with
  | some d, some q =>
      some ⟨r.brand, d, q, r.title, r.review, if hasMgmt then r.mgmtCell else none⟩
  | _, _ => none

/-- The body of the `for file in csv_files` loop of `load_data`: skip the
file when a mandatory column is missing, otherwise normalize its rows and
append them (`pd.concat([df_all, df], ignore_index=True)`; concatenation
also unions the column sets, which is what makes `MgmtFlag` appear in
`df_all` whenever some used file has it). -/
def loadStep (acc : UnifiedDataset) (f : CSVFile) : UnifiedDataset :=
  if qualifies f then
    ⟨acc.hasMgmtFlagCol || f.hasMgmtFlag,
     acc.rows ++ f.rows.filterMap (normRow f.hasMgmtFlag)⟩
  else acc

/-- `load_data`: fold the loop body over the discovered files, starting
from the empty `pd.DataFrame()` (no rows, no columns). -/
def load_data (files : List CSVFile) : UnifiedDataset :=
  files.foldl loadStep ⟨false, []⟩

/-- The rows `load_data` extracts from a single file: none when the file
lacks a mandatory column, its normalized rows otherwise. -/
def fileRows (f : CSVFile) : List Row :=
  if qualifies f then f.rows.filterMap (normRow f.hasMgmtFlag) else []

/-! ### Monthly Ratings page -/

/-- Month truncation `df["Date"].dt.to_period("M")`, as a single integer
month index (month-start timestamps are in bijection with these). -/
def monthKey (t : Timestamp) : Int :=
  t.year * 12 + (t.month - 1)

/-- The group of rows falling in the (brand, month) bucket. -/
def monthGroup (rows : List Row) (b : String) (m : Int) : List Row :=
  rows.filter (fun r => r.brand == b && monthKey r.date == m)

/-- `groupby(["Brand", "Month"])["Rating"].mean()`, viewed as a keyed
lookup: `some` of the arithmetic mean when the bucket is non-empty
(the key exists in the aggregate), `none` otherwise. -/
def monthlyAvg (rows : List Row) (b : String) (m : Int) : Option ℚ :=
  if (monthGroup rows b m).isEmpty then none
  else some (((monthGroup rows b m).map Row.rating).sum
              / ((monthGroup rows b m).length : ℚ))

/-- The distinct brands of the dataset (the pivot's columns). -/
def brandList (rows : List Row) : List String :=
  (rows.map Row.brand).dedup

/-- `pivot_df.index.min()`: the smallest month appearing in the data. -/
def minMonth (rows : List Row) : Int :=
  ((rows.map (fun r => monthKey r.date)).min?).getD 0

/-- `pivot_df.index.max()`: the largest month appearing in the data. -/
def maxMonth (rows : List Row) : Int :=
  ((rows.map (fun r => monthKey r.date)).max?).getD 0

/-- The `n` consecutive integers starting at `lo`. -/
def rangeFrom (lo : Int) (n : Nat) : List Int :=
  (List.range n).map (fun (i : Nat) => lo + (i : Int))

/-- The consecutive integers from `lo` to `hi` inclusive. -/
def intRange (lo hi : Int) : List Int :=
  rangeFrom lo (hi - lo + 1).toNat

/-- `pd.date_range(start=index.min(), end=index.max(), freq="MS")`: every
calendar month from the global minimum to the global maximum. -/
def fullRange (rows : List Row) : List Int :=
  intRange (minMonth rows) (maxMonth rows)

/-- Forward fill (`DataFrame.ffill`) on one column: each missing entry
takes the most recent earlier present value (`last`), and a present
entry becomes the new carried value. -/
def ffillList (last : Option ℚ) : List (Option ℚ) → List (Option ℚ)
  | [] => []
  | none :: vs => last :: ffillList last vs
  | some q :: vs => some q :: ffillList (some q) vs

/-- The reindex-ffill-melt pipeline (source lines 41-46): for each brand
column, take the aggregate over the full global month range, forward
fill, and emit long-form `(Month, Brand, AvgRating)` triples. -/
def densify (rows : List Row) : List (Int × String × Option ℚ) :=
  (brandList rows).flatMap (fun b =>
    ((fullRange rows).zip
        (ffillList none ((fullRange rows).map (monthlyAvg rows b)))).map
      (fun p => (p.1, b, p.2)))

/-- Closed form of forward filling: the value of the nearest month
`≤ lo + n` (but `≥ lo`) at which `f` is present — try the month itself,
else recurse on the previous month; `none` when no month down to `lo` is
present. -/
def nearestEarlier (f : Int → Option ℚ) (lo : Int) : Nat → Option ℚ
  | 0 => f lo
  | n + 1 => (f (lo + (n : Int) + 1)).or (nearestEarlier f lo n)

/-- `nearestEarlier` re-indexed by the month `m` itself instead of its
offset from the start of the range. -/
def nearestEarlierAt (f : Int → Option ℚ) (lo m : Int) : Option ℚ :=
  nearestEarlier f lo (m - lo).toNat

/-- Outcome of the "Monthly Ratings" page: either the `df_all.empty`
warning branch, or the melted chart data handed to Altair. -/
inductive MonthlyView where
  | noData
  | chart (data : List (Int × String × Option ℚ))
deriving DecidableEq, Repr

/-- The "Monthly Ratings" page (source lines 30-64, chart styling
elided): guard on the empty dataset, otherwise aggregate and densify. -/
def monthlyRatingsPage (df : UnifiedDataset) : MonthlyView :=
  if df.rows.isEmpty then .noData
  else .chart (densify df.rows)

/-! ### Management Dashboard page -/

/-- `df_all[df_all["MgmtFlag"] == "Yes"]`: a row is flagged exactly when
its `MgmtFlag` cell is the string `"Yes"` (a NaN cell compares unequal). -/
def flaggedRows (df : UnifiedDataset) : List Row :=
  df.rows.filter (fun r => r.mgmtFlag == some "Yes")

/-- The inclusive date-range mask (source lines 85-86):
`(Date >= to_datetime(from_date)) & (Date <= to_datetime(to_date))`. -/
def dateFilter (rows : List Row) (fromD toD : DateOnly) : List Row :=
  rows.filter (fun r => (fromD.toTimestamp.le r.date && r.date.le toD.toTimestamp))

/-- Outcome of the "Management Dashboard" page: the missing-column error,
the zero-flagged success message, or the browsing view over the flagged
rows (whose date widgets then drive `dateFilter`). -/
inductive MgmtView where
  | featureUnavailable
  | noFlagged
  | flaggedBrowser (rows : List Row)
deriving DecidableEq, Repr

/-- The "Management Dashboard" page (source lines 67-88, widget wiring
elided). -/
def managementPage (df : UnifiedDataset) : MgmtView :=
  if !df.hasMgmtFlagCol then .featureUnavailable
  else if (flaggedRows df).isEmpty then .noFlagged
  else .flaggedBrowser (flaggedRows df)

/-! ### Concrete sample data

A two-brand data set used to instantiate the theorems below on concrete
inputs: brand "A" has ratings 4.0 in January 2024 and 5.0 in March 2024
(the spec's forward-fill example), brand "B" one flagged rating in
February 2024.  Month keys: Jan 2024 = 24288, Feb = 24289, Mar = 24290. -/

/-- Brand "A", 2024-01-05, rating 4.0. -/
def rowJanA : Row := ⟨"A", ⟨2024, 1, 5, 0⟩, 4, "t1", "r1", none⟩

/-- Brand "A", 2024-03-09, rating 5.0. -/
def rowMarA : Row := ⟨"A", ⟨2024, 3, 9, 0⟩, 5, "t2", "r2", none⟩

/-- Brand "B", 2024-02-01, rating 3.0, flagged for management. -/
def rowFebB : Row := ⟨"B", ⟨2024, 2, 1, 0⟩, 3, "t3", "r3", some "Yes"⟩

/-- The spec's forward-fill example data: brand "A" only, observations in
January and March 2024. -/
def sampleRowsA : List Row := [rowJanA, rowMarA]

/-- Two-brand sample data. -/
def sampleRowsAB : List Row := [rowJanA, rowMarA, rowFebB]

/-- Raw (pre-normalization) image of `rowJanA`. -/
def rawJanA : RawRow := ⟨"A", some ⟨2024, 1, 5, 0⟩, some 4, "t1", "r1", none⟩

/-- Raw image of `rowMarA`. -/
def rawMarA : RawRow := ⟨"A", some ⟨2024, 3, 9, 0⟩, some 5, "t2", "r2", none⟩

/-- Raw image of `rowFebB`. -/
def rawFebB : RawRow := ⟨"B", some ⟨2024, 2, 1, 0⟩, some 3, "t3", "r3", some "Yes"⟩

/-- A raw row whose `Date` cell failed to parse (NaT). -/
def rawBadDate : RawRow := ⟨"A", none, some 2, "t4", "r4", none⟩

/-- A file with all mandatory columns plus `MgmtFlag`: three parseable
rows and one with an unparseable date. -/
def fileGood : CSVFile := ⟨true, true, true, true, [rawJanA, rawMarA, rawFebB, rawBadDate]⟩

/-- A file lacking the mandatory `Rating` column. -/
def fileNoRating : CSVFile := ⟨true, true, false, false, [rawJanA]⟩

/-- A second well-formed file (no `MgmtFlag` column). -/
def fileSmall : CSVFile := ⟨true, true, true, false, [rawMarA]⟩

/-! ## Lemmas about the loading fold -/

/-- Unfolding the `load_data` fold from an arbitrary accumulator. -/
theorem foldl_loadStep : ∀ (files : List CSVFile) (acc : UnifiedDataset),
    files.foldl loadStep acc =
      ⟨acc.hasMgmtFlagCol || files.any (fun f => qualifies f && f.hasMgmtFlag),
       acc.rows ++ files.flatMap fileRows⟩
  | [], acc => by simp
  | f :: fs, acc => by
      rw [List.foldl_cons, foldl_loadStep fs]
      cases hq : qualifies f <;>
        simp [loadStep, fileRows, hq, Bool.or_assoc, List.append_assoc]

/-- `load_data` in closed form: the `MgmtFlag` column is present when
some used file has it, and the rows are the concatenation of the
per-file normalized rows. -/
theorem load_data_eq (files : List CSVFile) :
    load_data files =
      ⟨files.any (fun f => qualifies f && f.hasMgmtFlag), files.flatMap fileRows⟩ := by
  unfold load_data
  rw [foldl_loadStep]
  simp

/-- Row part of `load_data_eq`. -/
theorem load_data_rows (files : List CSVFile) :
    (load_data files).rows = files.flatMap fileRows := by
  rw [load_data_eq]

/-- Column part of `load_data_eq`. -/
theorem load_data_flag (files : List CSVFile) :
    (load_data files).hasMgmtFlagCol =
      files.any (fun f => qualifies f && f.hasMgmtFlag) := by
  rw [load_data_eq]

/-- `List.any` only depends on the multiset of elements. -/
theorem any_perm {α : Type} (p : α → Bool) {l₁ l₂ : List α} (h : l₁.Perm l₂) :
    l₁.any p = l₂.any p := by
  cases hb : l₂.any p
  · rw [List.any_eq_false] at hb ⊢
    exact fun x hx => hb x (h.mem_iff.mp hx)
  · rw [List.any_eq_true] at hb ⊢
    obtain ⟨x, hx, hpx⟩ := hb
    exact ⟨x, h.mem_iff.mpr hx, hpx⟩

/-! ## Claims about loading and normalization -/

/-- C2: a row whose date or rating fails to parse is dropped (with no
error) during normalization, and a row where both parse survives into
the unified dataset with its other fields unchanged.  Stated as: the
unified rows are exactly the per-file `filterMap` of `normRow`;
`normRow` returns `none` exactly on a coercion failure; and on success
it preserves every other field (the `MgmtFlag` cell surviving exactly
when the file has that column). -/
theorem load_and_normalize_row_filter :
    (∀ files : List CSVFile, (load_data files).rows = files.flatMap fileRows) ∧
    (∀ f : CSVFile, qualifies f = true →
        fileRows f = f.rows.filterMap (normRow f.hasMgmtFlag)) ∧
    (∀ (hm : Bool) (r : RawRow),
        normRow hm r = none ↔ (r.dateCell = none ∨ r.ratingCell = none)) ∧
    (∀ (hm : Bool) (r : RawRow) (row : Row), normRow hm r = some row →
        row.brand = r.brand ∧ some row.date = r.dateCell ∧
        some row.rating = r.ratingCell ∧ row.title = r.title ∧
        row.review = r.review ∧
        row.mgmtFlag = (if hm then r.mgmtCell else none)) := by
  refine ⟨load_data_rows, ?_, ?_, ?_⟩
  · intro f hq
    unfold fileRows
    rw [hq]
    simp
  · intro hm r
    cases hd : r.dateCell <;> cases hr : r.ratingCell <;>
      simp [normRow, hd, hr]
  · intro hm r row h
    cases hd : r.dateCell <;> cases hr : r.ratingCell <;>
      rw [normRow, hd, hr] at h <;> try exact Option.noConfusion h
    injection h with h
    subst h
    simp [hd, hr]

/-- C2 witness: the spec's two-file scenario — one file missing the
`Rating` column is skipped, the other contributes its three parseable
rows and drops the unparseable-date row. -/
theorem load_and_normalize_row_filter_witness :
    (load_data [fileNoRating, fileGood]).rows = [rowJanA, rowMarA, rowFebB] := by
  rw [load_and_normalize_row_filter.1 [fileNoRating, fileGood]]
  decide

/-- C3: a file lacking any of the three mandatory columns is skipped
whole, and if no file qualifies the result is the empty dataset (no
rows, no columns), not an error. -/
theorem skip_files_missing_columns :
    (∀ files : List CSVFile, (∀ f ∈ files, qualifies f = false) →
        load_data files = ⟨false, []⟩) ∧
    (∀ (files₁ files₂ : List CSVFile) (f : CSVFile), qualifies f = false →
        load_data (files₁ ++ f :: files₂) = load_data (files₁ ++ files₂)) := by
  constructor
  · intro files h
    rw [load_data_eq]
    have h1 : files.any (fun f => qualifies f && f.hasMgmtFlag) = false := by
      rw [List.any_eq_false]
      intro x hx
      rw [h x hx]
      simp
    have h2 : files.flatMap fileRows = [] := by
      rw [List.flatMap_eq_nil_iff]
      intro x hx
      unfold fileRows
      rw [h x hx]
      simp
    rw [h1, h2]
  · intro l1 l2 f hq
    have hf : fileRows f = [] := by
      unfold fileRows
      rw [hq]
      simp
    have ha : (qualifies f && f.hasMgmtFlag) = false := by
      rw [hq]
      simp
    rw [load_data_eq, load_data_eq]
    simp [List.any_append, List.any_cons, List.flatMap_append,
      List.flatMap_cons, hf, ha]

/-- C3 witness: a set with only a column-deficient file yields the empty
dataset, and dropping that file from a larger set changes nothing. -/
theorem skip_files_missing_columns_witness :
    load_data [fileNoRating] = ⟨false, []⟩ ∧
    load_data ([] ++ fileNoRating :: [fileGood]) = load_data ([] ++ [fileGood]) := by
  refine ⟨skip_files_missing_columns.1 [fileNoRating] ?_,
    skip_files_missing_columns.2 [] [fileGood] fileNoRating (by decide)⟩
  intro f hf
  simp at hf
  rw [hf]
  decide

/-- C5 counterexample: on the empty dataset the Monthly Ratings page
takes the `df_all.empty` warning branch — a handled "no data" outcome,
not a designated precondition-violation error (no such error kind exists
in the program). -/
theorem empty_aggregate_counterexample :
    monthlyRatingsPage ⟨false, []⟩ = MonthlyView.noData := rfl

/-- C5 amended: the presentation layer guards the empty dataset and
renders the "no valid files" warning instead of ever invoking the
aggregation/reshape path; the aggregation runs only on non-empty data. -/
theorem empty_dataset_guarded (df : UnifiedDataset) :
    (df.rows = [] → monthlyRatingsPage df = MonthlyView.noData) ∧
    (df.rows ≠ [] → monthlyRatingsPage df = MonthlyView.chart (densify df.rows)) := by
  constructor
  · intro h
    unfold monthlyRatingsPage
    rw [h]
    simp
  · intro h
    unfold monthlyRatingsPage
    simp [List.isEmpty_iff, h]

/-- C5 amended witness: the guard at the empty dataset and the chart at a
non-empty one. -/
theorem empty_dataset_guarded_witness :
    monthlyRatingsPage ⟨false, []⟩ = MonthlyView.noData ∧
    monthlyRatingsPage ⟨true, sampleRowsAB⟩ = MonthlyView.chart (densify sampleRowsAB) := by
  exact ⟨(empty_dataset_guarded ⟨false, []⟩).1 rfl,
    (empty_dataset_guarded ⟨true, sampleRowsAB⟩).2 (by decide)⟩

/-- C6: when the `MgmtFlag` column is absent from the unified dataset the
Management page signals the distinct feature-unavailable condition,
different from the present-column-but-zero-flagged-rows success message;
the column is absent exactly when no used input file carries it. -/
theorem mgmt_flag_column_absent_condition :
    (∀ df : UnifiedDataset, df.hasMgmtFlagCol = false →
        managementPage df = MgmtView.featureUnavailable) ∧
    (∀ df : UnifiedDataset, df.hasMgmtFlagCol = true → flaggedRows df = [] →
        managementPage df = MgmtView.noFlagged) ∧
    MgmtView.featureUnavailable ≠ MgmtView.noFlagged ∧
    (∀ files : List CSVFile,
        ((load_data files).hasMgmtFlagCol = false ↔
          ∀ f ∈ files, qualifies f = true → f.hasMgmtFlag = false)) := by
  refine ⟨?_, ?_, by decide, ?_⟩
  · intro df h
    unfold managementPage
    rw [h]
    simp
  · intro df h hfl
    unfold managementPage
    rw [h, hfl]
    simp
  · intro files
    rw [load_data_flag, List.any_eq_false]
    constructor
    · intro h f hf hq
      have := h f hf
      rw [hq] at this
      simpa using this
    · intro h f hf
      by_cases hq : qualifies f = true
      · rw [hq, h f hf hq]
        simp
      · rw [Bool.not_eq_true] at hq
        rw [hq]
        simp

/-- C6 witness: a dataset without the column reports the feature as
unavailable, one with the column but no flagged rows reports success,
and a file set with no `MgmtFlag` column anywhere produces the former. -/
theorem mgmt_flag_column_absent_condition_witness :
    managementPage ⟨false, sampleRowsA⟩ = MgmtView.featureUnavailable ∧
    managementPage ⟨true, sampleRowsA⟩ = MgmtView.noFlagged ∧
    managementPage (load_data [fileSmall]) = MgmtView.featureUnavailable := by
  refine ⟨mgmt_flag_column_absent_condition.1 ⟨false, sampleRowsA⟩ rfl,
    mgmt_flag_column_absent_condition.2.1 ⟨true, sampleRowsA⟩ rfl (by decide),
    mgmt_flag_column_absent_condition.1 (load_data [fileSmall]) ?_⟩
  rw [(mgmt_flag_column_absent_condition.2.2.2 [fileSmall]).mpr]
  intro f hf
  simp at hf
  rw [hf]
  decide

/-- C8: loading is deterministic and order-insensitive — two runs over
the same multiset of files (in any enumeration order) produce the same
column set and row-set-equal (permutation-equal) rows.  Purity is by
construction: `load_data` is a function of the file list alone. -/
theorem load_and_normalize_order_invariant (files files' : List CSVFile)
    (h : files.Perm files') :
    (load_data files).hasMgmtFlagCol = (load_data files').hasMgmtFlagCol ∧
    (load_data files).rows.Perm (load_data files').rows := by
  constructor
  · rw [load_data_flag, load_data_flag]
    exact any_perm _ h
  · rw [load_data_rows, load_data_rows]
    exact List.Perm.flatMap_right fileRows h

/-- C8 witness: swapping the order of two concrete files preserves the
column set and permutes the rows. -/
theorem load_and_normalize_order_invariant_witness :
    (load_data [fileGood, fileSmall]).hasMgmtFlagCol =
      (load_data [fileSmall, fileGood]).hasMgmtFlagCol ∧
    (load_data [fileGood, fileSmall]).rows.Perm
      (load_data [fileSmall, fileGood]).rows :=
  load_and_normalize_order_invariant _ _ (List.Perm.swap _ _ _)

/-- C9: a review row is flagged for management exactly when its
`MgmtFlag` cell is the exact string "Yes"; any other value — a different
spelling or case, or an absent value — is not flagged. -/
theorem flagged_iff_mgmt_yes (df : UnifiedDataset) (r : Row) :
    r ∈ flaggedRows df ↔ r ∈ df.rows ∧ r.mgmtFlag = some "Yes" := by
  unfold flaggedRows
  rw [List.mem_filter]
  simp

/-- C9 witness: the "Yes"-flagged row is kept, rows with an absent or
differently-spelled flag are not. -/
theorem flagged_iff_mgmt_yes_witness :
    rowFebB ∈ flaggedRows ⟨true, sampleRowsAB⟩ ∧
    rowJanA ∉ flaggedRows ⟨true, sampleRowsAB⟩ ∧
    (⟨"B", ⟨2024, 2, 1, 0⟩, 3, "t3", "r3", some "yes"⟩ : Row) ∉
      flaggedRows ⟨true, sampleRowsAB⟩ := by
  refine ⟨(flagged_iff_mgmt_yes _ _).mpr (by decide), fun h => ?_, fun h => ?_⟩
  · have := ((flagged_iff_mgmt_yes _ _).mp h).2
    exact Option.noConfusion this
  · have := ((flagged_iff_mgmt_yes _ _).mp h).1
    simp [sampleRowsAB, rowJanA, rowMarA, rowFebB] at this

/-- C10: the flagged-review date filter is inclusive at both endpoints —
a row passes exactly when its timestamp is `≥` the from-date's midnight
and `≤` the to-date's midnight (and the comparison used is reflexive, so
the endpoints themselves pass). -/
theorem date_filter_inclusive (rows : List Row) (fromD toD : DateOnly) (r : Row) :
    (r ∈ dateFilter rows fromD toD ↔
      r ∈ rows ∧ fromD.toTimestamp.le r.date = true ∧
        r.date.le toD.toTimestamp = true) ∧
    (∀ t : Timestamp, t.le t = true) := by
  constructor
  · unfold dateFilter
    rw [List.mem_filter]
    simp [Bool.and_eq_true, and_assoc]
  · intro t
    simp [Timestamp.le]

/-- C10 witness: with the range 2024-01-05 .. 2024-02-01, the two
endpoint rows pass and the March row is excluded. -/
theorem date_filter_inclusive_witness :
    rowJanA ∈ dateFilter sampleRowsAB ⟨2024, 1, 5⟩ ⟨2024, 2, 1⟩ ∧
    rowFebB ∈ dateFilter sampleRowsAB ⟨2024, 1, 5⟩ ⟨2024, 2, 1⟩ ∧
    rowMarA ∉ dateFilter sampleRowsAB ⟨2024, 1, 5⟩ ⟨2024, 2, 1⟩ := by
  refine ⟨(date_filter_inclusive sampleRowsAB _ _ rowJanA).1.mpr (by decide),
    (date_filter_inclusive sampleRowsAB _ _ rowFebB).1.mpr (by decide),
    fun h => ?_⟩
  have := ((date_filter_inclusive sampleRowsAB _ _ rowMarA).1.mp h).2.2
  simp [rowMarA, Timestamp.le, DateOnly.toTimestamp] at this

/-! ## Lemmas about the reindex / forward-fill / melt pipeline -/

/-- Forward filling preserves the number of entries. -/
theorem ffillList_length : ∀ (last : Option ℚ) (vs : List (Option ℚ)),
    (ffillList last vs).length = vs.length
  | _, [] => rfl
  | last, none :: vs => by
      simp [ffillList, ffillList_length last vs]
  | _, some q :: vs => by
      simp [ffillList, ffillList_length (some q) vs]

/-- Looking back from offset `i + 1` of a range starting one month later
is looking back from offset `i`, with the start month as fallback. -/
theorem nearestEarlier_succ_or (f : Int → Option ℚ) (lo : Int) :
    ∀ i : Nat, (nearestEarlier f (lo + 1) i).or (f lo) = nearestEarlier f lo (i + 1)
  | 0 => by
      simp only [nearestEarlier]
      norm_num
  | i + 1 => by
      simp only [nearestEarlier]
      rw [Option.or_assoc, nearestEarlier_succ_or f lo i]
      simp only [nearestEarlier]
      have h : lo + 1 + (i : Int) + 1 = lo + ((i : Int) + 1) + 1 := by ring
      rw [h]
      push_cast
      ring_nf

/-- Peeling the first month off a consecutive range. -/
theorem rangeFrom_succ (lo : Int) (n : Nat) :
    rangeFrom lo (n + 1) = lo :: rangeFrom (lo + 1) n := by
  unfold rangeFrom
  rw [List.range_succ_eq_map]
  simp only [List.map_cons, Nat.cast_zero, add_zero, List.map_map]
  congr 1
  apply List.map_congr_left
  intro a _
  simp only [Function.comp]
  push_cast
  ring

/-- Forward filling the values of `f` over a consecutive range computes,
at each offset, the value of the nearest earlier present month (with the
initial carry `last` as fallback). -/
theorem ffill_map_range (f : Int → Option ℚ) :
    ∀ (n : Nat) (lo : Int) (last : Option ℚ),
    ffillList last ((rangeFrom lo n).map f) =
      (List.range n).map (fun (i : Nat) => (nearestEarlier f lo i).or last)
  | 0, _, _ => rfl
  | n + 1, lo, last => by
      rw [rangeFrom_succ, List.map_cons, List.range_succ_eq_map, List.map_cons,
        List.map_map]
      have hmap2 : (List.range n).map
            ((fun (i : Nat) => (nearestEarlier f lo i).or last) ∘ Nat.succ) =
          (List.range n).map
            (fun (i : Nat) => (nearestEarlier f (lo + 1) i).or ((f lo).or last)) := by
        apply List.map_congr_left
        intro a _
        simp only [Function.comp]
        rw [← nearestEarlier_succ_or f lo a, Option.or_assoc]
      rw [hmap2]
      have hsor : ∀ (a : ℚ) (o : Option ℚ), (some a).or o = some a := fun _ _ => rfl
      cases hf : f lo with
      | none =>
          simp only [ffillList, nearestEarlier, hf, Option.none_or]
          exact congrArg _ (ffill_map_range f n (lo + 1) last)
      | some q =>
          simp only [ffillList, nearestEarlier, hf, hsor]
          exact congrArg _ (ffill_map_range f n (lo + 1) (some q))

/-- Closed form of the whole pipeline: the melted output lists, for every
brand and every month of the global range, the forward-filled value
`nearestEarlierAt` of that brand's own aggregate. -/
theorem densify_eq (rows : List Row) :
    densify rows = (brandList rows).flatMap (fun b =>
      (fullRange rows).map (fun m =>
        (m, b, nearestEarlierAt (monthlyAvg rows b) (minMonth rows) m))) := by
  unfold densify
  refine congrArg _ (funext fun b => ?_)
  rw [show fullRange rows =
    rangeFrom (minMonth rows) ((maxMonth rows - minMonth rows + 1).toNat) from rfl]
  rw [ffill_map_range]
  simp only [Option.or_none]
  rw [show rangeFrom (minMonth rows) ((maxMonth rows - minMonth rows + 1).toNat) =
    (List.range ((maxMonth rows - minMonth rows + 1).toNat)).map
      (fun (i : Nat) => minMonth rows + (i : Int)) from rfl]
  rw [List.zip_map', List.map_map, List.map_map]
  apply List.map_congr_left
  intro i _
  simp only [Function.comp]
  unfold nearestEarlierAt
  have h2 : (minMonth rows + (i : Int) - minMonth rows).toNat = i := by omega
  rw [h2]

/-- Sum of a constant map. -/
theorem sum_map_const_nat {α : Type} (l : List α) (c : Nat) :
    (l.map (fun _ => c)).sum = c * l.length := by
  induction l with
  | nil => simp
  | cons a l ih =>
      simp [ih, Nat.mul_succ]
      ring

/-- The global minimum month bounds every observed month from below. -/
theorem minMonth_le_of_mem (rows : List Row) (r : Row) (hr : r ∈ rows) :
    minMonth rows ≤ monthKey r.date := by
  unfold minMonth
  have hmem : monthKey r.date ∈ rows.map (fun r => monthKey r.date) :=
    List.mem_map_of_mem _ hr
  cases hmin : (rows.map (fun r => monthKey r.date)).min? with
  | none =>
      rw [List.min?_eq_none_iff] at hmin
      rw [hmin] at hmem
      simp at hmem
  | some a =>
      haveI : Std.Antisymm (fun x1 x2 : Int => x1 ≤ x2) :=
        ⟨fun h1 h2 => le_antisymm h1 h2⟩
      have hiff := (List.min?_eq_some_iff (fun a => le_refl a)
        (fun a b => min_choice a b) (fun a b c => le_min_iff)).mp hmin
      exact hiff.2 _ hmem

/-- The global maximum month bounds every observed month from above. -/
theorem le_maxMonth_of_mem (rows : List Row) (r : Row) (hr : r ∈ rows) :
    monthKey r.date ≤ maxMonth rows := by
  unfold maxMonth
  have hmem : monthKey r.date ∈ rows.map (fun r => monthKey r.date) :=
    List.mem_map_of_mem _ hr
  cases hmax : (rows.map (fun r => monthKey r.date)).max? with
  | none =>
      rw [List.max?_eq_none_iff] at hmax
      rw [hmax] at hmem
      simp at hmem
  | some a =>
      haveI : Std.Antisymm (fun x1 x2 : Int => x1 ≤ x2) :=
        ⟨fun h1 h2 => le_antisymm h1 h2⟩
      have hiff := (List.max?_eq_some_iff (fun a => le_refl a)
        (fun a b => max_choice a b) (fun a b c => max_le_iff)).mp hmax
      exact hiff.2 _ hmem

/-! ## Claims about aggregation and densification -/

/-- C1: every per-brand entry of the densified output for a month of the
global range is `nearestEarlierAt` of that brand's own aggregate: a
month whose (brand, month) bucket is present keeps its own average; a
month absent from the brand's aggregate takes the value of the nearest
earlier present month; a month with no earlier present observation for
that brand stays `none` (not zero and not another brand's value, since
only `monthlyAvg rows b` is consulted).  In particular, brand "A" with
4.0 in January 2024 and 5.0 in March 2024 densifies to Jan=4.0,
Feb=4.0, Mar=5.0. -/
theorem densify_forward_fill :
    (∀ rows : List Row, densify rows =
      (brandList rows).flatMap (fun b =>
        (fullRange rows).map (fun m =>
          (m, b, nearestEarlierAt (monthlyAvg rows b) (minMonth rows) m)))) ∧
    (∀ (f : Int → Option ℚ) (lo : Int) (n : Nat) (q : ℚ),
        f (lo + (n : Int)) = some q → nearestEarlier f lo n = some q) ∧
    (∀ (f : Int → Option ℚ) (lo : Int) (n : Nat),
        (∀ k : Nat, k ≤ n → f (lo + (k : Int)) = none) →
        nearestEarlier f lo n = none) ∧
    densify sampleRowsA =
      [(24288, "A", some 4), (24289, "A", some 4), (24290, "A", some 5)] := by
  refine ⟨densify_eq, ?_, ?_, ?_⟩
  case refine_3 =>
    norm_num [densify, brandList, sampleRowsA, rowJanA, rowMarA, fullRange,
      intRange, rangeFrom, minMonth, maxMonth, monthKey, List.min?, List.max?,
      ffillList, monthlyAvg, monthGroup, List.range_succ]
    decide
  · intro f lo n q hq
    cases n with
    | zero =>
        simp only [Nat.cast_zero, add_zero] at hq
        simpa [nearestEarlier] using hq
    | succ n =>
        have h : lo + ((n : Nat) + 1 : Nat) = lo + (n : Int) + 1 := by
          push_cast
          ring
        rw [h] at hq
        simp [nearestEarlier, hq]
  · intro f lo n hnone
    induction n with
    | zero =>
        have := hnone 0 (le_refl 0)
        simpa [nearestEarlier] using this
    | succ n ih =>
        have h : lo + ((n : Nat) + 1 : Nat) = lo + (n : Int) + 1 := by
          push_cast
          ring
        have hn := hnone (n + 1) (le_refl _)
        rw [h] at hn
        simp [nearestEarlier, hn]
        exact ih (fun k hk => hnone k (Nat.le_succ_of_le hk))

/-- C1 witness: at concrete inputs — brand "A"'s March value is found
when looking back from March, and a series with no present observation
up to a month stays absent. -/
theorem densify_forward_fill_witness :
    nearestEarlier (monthlyAvg sampleRowsA "A") 24288 2 = some 5 ∧
    nearestEarlier (fun _ => (none : Option ℚ)) 24288 2 = none :=
  ⟨densify_forward_fill.2.1 _ 24288 2 5
    (by norm_num [monthlyAvg, monthGroup, sampleRowsA, rowJanA, rowMarA, monthKey]),
   densify_forward_fill.2.2.1 _ 24288 2 (fun _ _ => rfl)⟩

/-- C4: the densified output has exactly one row per (month of the
global range, distinct brand) pair: its length is the product, the
global range has `max − min + 1` months, `brandList` is duplicate-free
and exhausts the brands of the data, and the global range bounds every
observed month of every brand (it is taken across all brands combined). -/
theorem densify_row_count (rows : List Row) (h : rows ≠ []) :
    (densify rows).length = (fullRange rows).length * (brandList rows).length ∧
    (fullRange rows).length = (maxMonth rows - minMonth rows + 1).toNat ∧
    (brandList rows).Nodup ∧
    (∀ b : String, b ∈ brandList rows ↔ b ∈ rows.map Row.brand) ∧
    ∀ r ∈ rows, minMonth rows ≤ monthKey r.date ∧ monthKey r.date ≤ maxMonth rows := by
  refine ⟨?_, ?_, List.nodup_dedup _, fun b => List.mem_dedup, ?_⟩
  · rw [densify_eq rows, List.length_flatMap]
    have hconst : (brandList rows).map (List.length ∘ fun b =>
        (fullRange rows).map (fun m =>
          (m, b, nearestEarlierAt (monthlyAvg rows b) (minMonth rows) m))) =
        (brandList rows).map (fun _ => (fullRange rows).length) := by
      apply List.map_congr_left
      intro b _
      simp
    rw [hconst, sum_map_const_nat]
  · simp [fullRange, intRange, rangeFrom]
  · exact fun r hr => ⟨minMonth_le_of_mem rows r hr, le_maxMonth_of_mem rows r hr⟩

/-- C4 witness: two brands over a three-month global range give six
densified rows. -/
theorem densify_row_count_witness :
    (densify sampleRowsAB).length = 6 ∧ (fullRange sampleRowsAB).length = 3 ∧
    (brandList sampleRowsAB).length = 2 := by
  refine ⟨?_, by decide, by decide⟩
  rw [(densify_row_count sampleRowsAB (by decide)).1]
  decide

/-- C7: the (brand, month) → mean-rating aggregate only depends on the
multiset of rows: any permutation of the input rows (within or across
files) leaves every bucket's mean — and which buckets exist —
unchanged. -/
theorem monthly_average_perm_invariant (rows rows' : List Row)
    (h : rows.Perm rows') (b : String) (m : Int) :
    monthlyAvg rows b m = monthlyAvg rows' b m := by
  have hp : (monthGroup rows b m).Perm (monthGroup rows' b m) := h.filter _
  have hlen : (monthGroup rows b m).length = (monthGroup rows' b m).length :=
    hp.length_eq
  have hempty : ∀ l : List Row, l.isEmpty = decide (l.length = 0) := by
    intro l
    cases l <;> simp
  have hemp : (monthGroup rows b m).isEmpty = (monthGroup rows' b m).isEmpty := by
    rw [hempty, hempty, hlen]
  have hsum : ((monthGroup rows b m).map Row.rating).sum =
      ((monthGroup rows' b m).map Row.rating).sum :=
    (hp.map Row.rating).sum_eq
  unfold monthlyAvg
  rw [hemp, hlen, hsum]

/-- C7 witness: swapping two rows leaves the January bucket of brand "A"
at its value 4.0. -/
theorem monthly_average_perm_invariant_witness :
    monthlyAvg [rowJanA, rowMarA, rowFebB] "A" 24288 =
      monthlyAvg [rowMarA, rowJanA, rowFebB] "A" 24288 ∧
    monthlyAvg [rowJanA, rowMarA, rowFebB] "A" 24288 = some 4 :=
  ⟨monthly_average_perm_invariant _ _ (List.Perm.swap _ _ _) "A" 24288,
   by norm_num [monthlyAvg, monthGroup, rowJanA, rowMarA, rowFebB, monthKey]⟩

end EmberBus
